import Mathlib

/-!
Verification of the content extraction and chunking pipeline of the
YMYL audit tool.  The model below is a shallow embedding of
`src/core/html_extractor.py` (the HTML-direct extractor) and
`src/core/extractor.py` (the URL extractor): text is modelled as lists
of characters, the parse tree as an inductive `Node`, and the stateful
walkers as folds over explicit state records.
-/

/-- Text is modelled as a list of characters (Python `str`). -/
abbrev Str := List Char

/-- Convert a Lean string literal into the character-list model. -/
def s2c (s : String) : Str := s.data

/-- Python whitespace characters (the `\s` class and `str.strip`). -/
def isWS (c : Char) : Bool :=
  c = ' ' || c = '\t' || c = '\n' || c = '\r' || c = '\x0b' || c = '\x0c'

/-- Python `str.lower` (ASCII model). -/
def pyLower (s : Str) : Str := s.map Char.toLower

/-- Python `str.upper` (ASCII model). -/
def pyUpper (s : Str) : Str := s.map Char.toUpper

/-- Remove trailing whitespace characters. -/
def rstripWS : Str → Str
  | [] => []
  | c :: t =>
    match rstripWS t with
    | [] => if isWS c then [] else [c]
    | r => c :: r

/-- Python `str.strip`: remove leading and trailing whitespace. -/
def trimWS (s : Str) : Str := rstripWS (s.dropWhile isWS)

/-- Helper for `collapse_runs`: the flag records whether the previous
character belonged to a run being collapsed. -/
def collapse_runs_aux (p : Char → Bool) : Bool → Str → Str
  | _, [] => []
  | prev, c :: t =>
    if p c then
      if prev then collapse_runs_aux p true t
      else ' ' :: collapse_runs_aux p true t
    else c :: collapse_runs_aux p false t

/-- Replace every maximal run of characters satisfying `p` by one space
(models `re.sub(pattern+, ' ', text)`). -/
def collapse_runs (p : Char → Bool) (s : Str) : Str :=
  collapse_runs_aux p false s

/-- `HTMLContentExtractor._clean_text_preserve_structure`: collapse
newline runs, then whitespace runs, to single spaces, then strip. -/
def clean_text_preserve_structure (s : Str) : Str :=
  trimWS (collapse_runs isWS (collapse_runs (fun c => c = '\n') s))

/-- One `small_chunks` entry group of the output JSON. -/
structure Chunk where
  big_chunk_index : Nat
  small_chunks : List Str
deriving DecidableEq, Repr

/-- Concatenation of all `small_chunks` lists in chunk order. -/
def joinChunks (cs : List Chunk) : List Str :=
  (cs.map Chunk.small_chunks).flatten

/-- A record opens a new big chunk when it carries the H2 prefix. -/
def isH2rec (r : Str) : Bool := (s2c "H2:").isPrefixOf r

/-- Chunking state of `HTMLContentExtractor._extract_with_direct_chunking`:
`pre_h2_content`, `current_chunk_content`, whether `current_h2_section`
is set, `chunk_index`, and the accumulated `big_chunks`. -/
structure DirectState where
  pre_h2 : List Str
  current : List Str
  h2seen : Bool
  chunk_index : Nat
  big_chunks : List Chunk
deriving Repr

/-- One iteration of the chunk bookkeeping in
`_extract_with_direct_chunking` (lines 124-150): on an H2 record flush
the current buffer (or, failing that, the pre-H2 buffer) and start a
new section; otherwise append to the pre-H2 or current buffer. -/
def direct_step (st : DirectState) (r : Str) : DirectState :=
  if isH2rec r then
    if st.current ≠ [] then
      ⟨st.pre_h2, [r], true, st.chunk_index + 1,
        st.big_chunks ++ [⟨st.chunk_index, st.current⟩]⟩
    else if st.pre_h2 ≠ [] then
      ⟨st.pre_h2, [r], true, st.chunk_index + 1,
        st.big_chunks ++ [⟨st.chunk_index, st.pre_h2⟩]⟩
    else
      ⟨st.pre_h2, [r], true, st.chunk_index, st.big_chunks⟩
  else if st.h2seen then
    ⟨st.pre_h2, st.current ++ [r], st.h2seen, st.chunk_index, st.big_chunks⟩
  else
    ⟨st.pre_h2 ++ [r], st.current, st.h2seen, st.chunk_index, st.big_chunks⟩

/-- End-of-traversal flush of `_extract_with_direct_chunking`
(lines 152-162). -/
def direct_finalize (st : DirectState) : List Chunk :=
  st.big_chunks ++
    (if st.current ≠ [] then [⟨st.chunk_index, st.current⟩]
     else if st.pre_h2 ≠ [] then [⟨1, st.pre_h2⟩]
     else [])

/-- Initial chunking state. -/
def direct_init : DirectState := ⟨[], [], false, 1, []⟩

/-- The chunk organization performed by `_extract_with_direct_chunking`
on the ordered record sequence it formats. -/
def direct_chunking (rs : List Str) : List Chunk :=
  direct_finalize (rs.foldl direct_step direct_init)

/-- Chunking state of `ContentExtractor._organize_by_h2`. -/
structure OrgState where
  current : List Str
  chunk_index : Nat
  big_chunks : List Chunk
deriving Repr

/-- One iteration of `_organize_by_h2` (lines 255-270). -/
def org_step (st : OrgState) (r : Str) : OrgState :=
  if isH2rec r then
    if st.current ≠ [] then
      ⟨[r], st.chunk_index + 1, st.big_chunks ++ [⟨st.chunk_index, st.current⟩]⟩
    else
      ⟨[r], st.chunk_index, st.big_chunks⟩
  else
    ⟨st.current ++ [r], st.chunk_index, st.big_chunks⟩

/-- End-of-scan flush of `_organize_by_h2` (lines 272-277). -/
def org_finalize (st : OrgState) : List Chunk :=
  st.big_chunks ++ (if st.current ≠ [] then [⟨st.chunk_index, st.current⟩] else [])

/-- `ContentExtractor._organize_by_h2` (lines 251-284), including the
fallback that wraps everything into one chunk when no chunk was made. -/
def organize_by_h2 (parts : List Str) : List Chunk :=
  let bc := org_finalize (parts.foldl org_step ⟨[], 1, []⟩)
  if bc = [] ∧ parts ≠ [] then [⟨1, parts⟩] else bc

theorem joinChunks_append (a b : List Chunk) :
    joinChunks (a ++ b) = joinChunks a ++ joinChunks b := by
  simp [joinChunks]

theorem joinChunks_single (i : Nat) (s : List Str) :
    joinChunks [⟨i, s⟩] = s := by
  simp [joinChunks]

/-- Invariant of the direct chunking state: before the first H2 both
the current buffer and the chunk list are empty; after it the current
buffer is never empty; chunk indices count up contiguously from 1. -/
def DGood (st : DirectState) : Prop :=
  (st.h2seen = false → st.current = [] ∧ st.big_chunks = []) ∧
  (st.h2seen = true → st.current ≠ []) ∧
  st.chunk_index = st.big_chunks.length + 1 ∧
  st.big_chunks.map Chunk.big_chunk_index = List.range' 1 st.big_chunks.length

/-- All records accounted for by a direct chunking state, in order. -/
def dsem (st : DirectState) : List Str :=
  joinChunks st.big_chunks ++ (if st.h2seen then st.current else st.pre_h2)

theorem DGood_init : DGood direct_init := by
  constructor
  · intro _; exact ⟨rfl, rfl⟩
  refine ⟨by intro h; simp [direct_init] at h, rfl, rfl⟩

theorem DGood_step (st : DirectState) (r : Str) (h : DGood st) :
    DGood (direct_step st r) := by
  obtain ⟨h1, h2, h3, h4⟩ := h
  unfold direct_step
  split
  · split
    · refine ⟨by intro h; simp at h, fun _ => by simp, by simp [h3], ?_⟩
      simp only [List.map_append, List.map_cons, List.map_nil,
        List.length_append, List.length_cons, List.length_nil]
      rw [h4, h3]
      have := List.range'_1_concat 1 st.big_chunks.length
      simpa [Nat.add_comm] using this.symm
    · split
      · refine ⟨by intro h; simp at h, fun _ => by simp, by simp [h3], ?_⟩
        simp only [List.map_append, List.map_cons, List.map_nil,
          List.length_append, List.length_cons, List.length_nil]
        rw [h4, h3]
        have := List.range'_1_concat 1 st.big_chunks.length
        simpa [Nat.add_comm] using this.symm
      · exact ⟨by intro h; simp at h, fun _ => by simp, h3, h4⟩
  · split
    · rename_i hseen
      refine ⟨by intro h; simp_all, ?_, h3, h4⟩
      intro _
      have := h2 hseen
      simp [this]
    · rename_i hseen
      simp only [Bool.not_eq_true] at hseen
      refine ⟨?_, ?_, h3, h4⟩
      · intro _; exact ⟨(h1 hseen).1, (h1 hseen).2⟩
      · intro hc; simp [hseen] at hc
  
theorem dsem_step (st : DirectState) (r : Str) (h : DGood st) :
    dsem (direct_step st r) = dsem st ++ [r] := by
  obtain ⟨h1, h2, h3, h4⟩ := h
  unfold direct_step dsem
  split
  · split
    · rename_i hc
      have hseen : st.h2seen = true := by
        by_cases hb : st.h2seen
        · exact hb
        · exact absurd (h1 (by simpa using hb)).1 hc
      simp [joinChunks_append, joinChunks_single, hseen]
    · split
      · rename_i hc hp
        have hseen : st.h2seen = false := by
          by_cases hb : st.h2seen
          · exact absurd (h2 hb) (by simpa using hc)
          · simpa using hb
        have hchunks : st.big_chunks = [] := (h1 hseen).2
        simp [joinChunks_append, joinChunks_single, hseen, hchunks, joinChunks]
      · rename_i hc hp
        simp only [ne_eq, not_not] at hc hp
        have hseen : st.h2seen = false := by
          by_cases hb : st.h2seen
          · exact absurd (h2 hb) (by simp [hc])
          · simpa using hb
        simp [hseen, hp, hc]
  · split
    · rename_i hseen
      simp [hseen]
    · rename_i hseen
      simp only [Bool.not_eq_true] at hseen
      simp [hseen]

theorem dsem_finalize (st : DirectState) (h : DGood st) :
    joinChunks (direct_finalize st) = dsem st := by
  obtain ⟨h1, h2, h3, h4⟩ := h
  unfold direct_finalize dsem
  split
  · rename_i hc
    have hseen : st.h2seen = true := by
      by_cases hb : st.h2seen
      · exact hb
      · exact absurd (h1 (by simpa using hb)).1 hc
    simp [joinChunks_append, joinChunks_single, hseen]
  · rename_i hc
    simp only [ne_eq, not_not] at hc
    have hseen : st.h2seen = false := by
      by_cases hb : st.h2seen
      · exact absurd (h2 hb) (by simp [hc])
      · simpa using hb
    split
    · simp [joinChunks_append, joinChunks_single, hseen]
    · rename_i hp
      simp only [ne_eq, not_not] at hp
      simp [hseen, hp, hc, joinChunks]

theorem direct_fold_join (rs : List Str) :
    ∀ st : DirectState, DGood st →
      joinChunks (direct_finalize (rs.foldl direct_step st)) = dsem st ++ rs := by
  induction rs with
  | nil => intro st h; simpa using dsem_finalize st h
  | cons r rest ih =>
    intro st h
    have := ih (direct_step st r) (DGood_step st r h)
    simp only [List.foldl_cons]
    rw [this, dsem_step st r h, List.append_assoc]
    rfl

theorem DGood_fold (rs : List Str) :
    ∀ st : DirectState, DGood st → DGood (rs.foldl direct_step st) := by
  induction rs with
  | nil => intro st h; exact h
  | cons r rest ih =>
    intro st h
    exact ih (direct_step st r) (DGood_step st r h)

theorem direct_finalize_indices (st : DirectState) (h : DGood st) :
    (direct_finalize st).map Chunk.big_chunk_index
      = List.range' 1 (direct_finalize st).length := by
  obtain ⟨h1, h2, h3, h4⟩ := h
  unfold direct_finalize
  split
  · rename_i hc
    simp only [List.map_append, List.map_cons, List.map_nil,
      List.length_append, List.length_cons, List.length_nil]
    rw [h4, h3]
    have := List.range'_1_concat 1 st.big_chunks.length
    simpa [Nat.add_comm] using this.symm
  · rename_i hc
    simp only [ne_eq, not_not] at hc
    have hseen : st.h2seen = false := by
      by_cases hb : st.h2seen
      · exact absurd (h2 hb) (by simp [hc])
      · simpa using hb
    have hchunks : st.big_chunks = [] := (h1 hseen).2
    split
    · simp [hchunks]
    · simp [hchunks]

theorem direct_count_after_h2 (rs : List Str) :
    ∀ st : DirectState, DGood st → st.h2seen = true →
      (direct_finalize (rs.foldl direct_step st)).length
        = st.big_chunks.length + rs.countP isH2rec + 1 := by
  induction rs with
  | nil =>
    intro st h hseen
    have hc : st.current ≠ [] := h.2.1 hseen
    simp [direct_finalize, hc]
  | cons r rest ih =>
    intro st h hseen
    have hgood := DGood_step st r h
    simp only [List.foldl_cons]
    by_cases hr : isH2rec r
    · have hc : st.current ≠ [] := h.2.1 hseen
      have hstep : direct_step st r
          = ⟨st.pre_h2, [r], true, st.chunk_index + 1,
              st.big_chunks ++ [⟨st.chunk_index, st.current⟩]⟩ := by
        simp [direct_step, hr, hc]
      rw [hstep] at hgood ⊢
      have := ih _ hgood rfl
      simp only [List.length_append, List.length_cons, List.length_nil] at this
      rw [this]
      simp [List.countP_cons, hr]
      omega
    · have hstep : direct_step st r
          = ⟨st.pre_h2, st.current ++ [r], st.h2seen, st.chunk_index,
              st.big_chunks⟩ := by
        simp [direct_step, hr, hseen]
      rw [hstep] at hgood ⊢
      have := ih _ hgood hseen
      rw [this]
      simp [List.countP_cons, hr]

theorem direct_count_before_h2 (rs : List Str) :
    ∀ st : DirectState, DGood st → st.h2seen = false →
      (direct_finalize (rs.foldl direct_step st)).length
        = rs.countP isH2rec +
            (if st.pre_h2 = [] ∧ rs.takeWhile (fun r => !(isH2rec r)) = []
             then 0 else 1) := by
  induction rs with
  | nil =>
    intro st h hseen
    have hc : st.current = [] := (h.1 hseen).1
    have hchunks : st.big_chunks = [] := (h.1 hseen).2
    by_cases hp : st.pre_h2 = []
    · simp [direct_finalize, hc, hchunks, hp]
    · simp [direct_finalize, hc, hchunks, hp]
  | cons r rest ih =>
    intro st h hseen
    have hc : st.current = [] := (h.1 hseen).1
    have hchunks : st.big_chunks = [] := (h.1 hseen).2
    have hgood := DGood_step st r h
    simp only [List.foldl_cons]
    by_cases hr : isH2rec r
    · by_cases hp : st.pre_h2 = []
      · have hstep : direct_step st r
            = ⟨st.pre_h2, [r], true, st.chunk_index, st.big_chunks⟩ := by
          simp [direct_step, hr, hc, hp]
        rw [hstep] at hgood ⊢
        have := direct_count_after_h2 rest _ hgood rfl
        rw [this]
        simp [List.countP_cons, hr, hp, hchunks, List.takeWhile_cons]
      · have hstep : direct_step st r
            = ⟨st.pre_h2, [r], true, st.chunk_index + 1,
                st.big_chunks ++ [⟨st.chunk_index, st.pre_h2⟩]⟩ := by
          simp [direct_step, hr, hc, hp]
        rw [hstep] at hgood ⊢
        have := direct_count_after_h2 rest _ hgood rfl
        simp only [List.length_append, List.length_cons, List.length_nil] at this
        rw [this]
        simp [List.countP_cons, hr, hp, hchunks]
        omega
    · have hstep : direct_step st r
          = ⟨st.pre_h2 ++ [r], st.current, st.h2seen, st.chunk_index,
              st.big_chunks⟩ := by
        simp [direct_step, hr, hseen]
      rw [hstep] at hgood ⊢
      have := ih _ hgood hseen
      rw [this]
      simp [List.countP_cons, hr, List.takeWhile_cons]

def osem (st : OrgState) : List Str :=
  joinChunks st.big_chunks ++ st.current

theorem osem_step (st : OrgState) (r : Str) :
    osem (org_step st r) = osem st ++ [r] := by
  unfold org_step osem
  split
  · split
    · simp [joinChunks_append, joinChunks_single]
    · rename_i hc
      simp only [ne_eq, not_not] at hc
      simp [hc]
  · simp

theorem osem_finalize (st : OrgState) :
    joinChunks (org_finalize st) = osem st := by
  unfold org_finalize osem
  split
  · simp [joinChunks_append, joinChunks_single]
  · rename_i hc
    simp only [ne_eq, not_not] at hc
    simp [hc]

theorem org_fold_join (rs : List Str) :
    ∀ st : OrgState,
      joinChunks (org_finalize (rs.foldl org_step st)) = osem st ++ rs := by
  induction rs with
  | nil => intro st; simpa using osem_finalize st
  | cons r rest ih =>
    intro st
    simp only [List.foldl_cons]
    rw [ih (org_step st r), osem_step st r, List.append_assoc]
    rfl

/-- Invariant of the URL-variant organizer state: contiguous indices. -/
def OGood (st : OrgState) : Prop :=
  st.chunk_index = st.big_chunks.length + 1 ∧
  st.big_chunks.map Chunk.big_chunk_index = List.range' 1 st.big_chunks.length

theorem OGood_step (st : OrgState) (r : Str) (h : OGood st) :
    OGood (org_step st r) := by
  obtain ⟨h1, h2⟩ := h
  unfold org_step
  split
  · split
    · refine ⟨by simp [h1], ?_⟩
      simp only [List.map_append, List.map_cons, List.map_nil,
        List.length_append, List.length_cons, List.length_nil]
      rw [h2, h1]
      have := List.range'_1_concat 1 st.big_chunks.length
      simpa [Nat.add_comm] using this.symm
    · exact ⟨h1, h2⟩
  · exact ⟨h1, h2⟩

theorem OGood_fold (rs : List Str) :
    ∀ st : OrgState, OGood st → OGood (rs.foldl org_step st) := by
  induction rs with
  | nil => intro st h; exact h
  | cons r rest ih => intro st h; exact ih (org_step st r) (OGood_step st r h)

theorem org_finalize_indices (st : OrgState) (h : OGood st) :
    (org_finalize st).map Chunk.big_chunk_index
      = List.range' 1 (org_finalize st).length := by
  obtain ⟨h1, h2⟩ := h
  unfold org_finalize
  split
  · simp only [List.map_append, List.map_cons, List.map_nil,
      List.length_append, List.length_cons, List.length_nil]
    rw [h2, h1]
    have := List.range'_1_concat 1 st.big_chunks.length
    simpa [Nat.add_comm] using this.symm
  · simpa using h2

theorem org_count_current_nonempty (rs : List Str) :
    ∀ st : OrgState, st.current ≠ [] →
      (org_finalize (rs.foldl org_step st)).length
        = st.big_chunks.length + rs.countP isH2rec + 1 := by
  induction rs with
  | nil =>
    intro st hc
    simp [org_finalize, hc]
  | cons r rest ih =>
    intro st hc
    simp only [List.foldl_cons]
    by_cases hr : isH2rec r
    · have hstep : org_step st r
          = ⟨[r], st.chunk_index + 1,
              st.big_chunks ++ [⟨st.chunk_index, st.current⟩]⟩ := by
        simp [org_step, hr, hc]
      rw [hstep]
      have := ih ⟨[r], st.chunk_index + 1,
          st.big_chunks ++ [⟨st.chunk_index, st.current⟩]⟩ (by simp)
      simp only [List.length_append, List.length_cons, List.length_nil] at this
      rw [this]
      simp [List.countP_cons, hr]
      omega
    · have hstep : org_step st r
          = ⟨st.current ++ [r], st.chunk_index, st.big_chunks⟩ := by
        simp [org_step, hr]
      rw [hstep]
      have := ih ⟨st.current ++ [r], st.chunk_index, st.big_chunks⟩ (by simp)
      rw [this]
      simp [List.countP_cons, hr]

theorem org_count_current_empty (rs : List Str) :
    ∀ st : OrgState, st.current = [] →
      (org_finalize (rs.foldl org_step st)).length
        = st.big_chunks.length + rs.countP isH2rec +
            (if rs.takeWhile (fun r => !(isH2rec r)) = [] then 0 else 1) := by
  induction rs with
  | nil =>
    intro st hc
    simp [org_finalize, hc]
  | cons r rest ih =>
    intro st hc
    simp only [List.foldl_cons]
    by_cases hr : isH2rec r
    · have hstep : org_step st r
          = ⟨[r], st.chunk_index, st.big_chunks⟩ := by
        simp [org_step, hr, hc]
      rw [hstep]
      have := org_count_current_nonempty rest
          ⟨[r], st.chunk_index, st.big_chunks⟩ (by simp)
      rw [this]
      simp [List.countP_cons, hr, List.takeWhile_cons]
      omega
    · have hstep : org_step st r
          = ⟨st.current ++ [r], st.chunk_index, st.big_chunks⟩ := by
        simp [org_step, hr]
      rw [hstep]
      have := org_count_current_nonempty rest
          ⟨st.current ++ [r], st.chunk_index, st.big_chunks⟩ (by simp [hc])
      rw [this]
      simp [List.countP_cons, hr, List.takeWhile_cons]

theorem organize_by_h2_ne_nil (p : Str) (ps : List Str) :
    org_finalize ((p :: ps).foldl org_step ⟨[], 1, []⟩) ≠ [] := by
  intro hempty
  have hlen := org_count_current_empty (p :: ps) ⟨[], 1, []⟩ rfl
  rw [hempty] at hlen
  simp only [List.length_nil] at hlen
  by_cases hr : isH2rec p
  · rw [List.countP_cons] at hlen
    simp [hr] at hlen
  · rw [List.takeWhile_cons] at hlen
    simp [hr] at hlen

/-- C3: concatenating all small_chunks lists in big-chunk order
reproduces the original record sequence, for both organizer variants. -/
theorem C3_partition (parts : List Str) :
    joinChunks (organize_by_h2 parts) = parts ∧
    joinChunks (direct_chunking parts) = parts := by
  constructor
  · simp only [organize_by_h2]
    split
    · rename_i hcase
      simp [joinChunks_single]
    · have := org_fold_join parts ⟨[], 1, []⟩
      simpa [osem, joinChunks] using this
  · have := direct_fold_join parts direct_init DGood_init
    simpa [direct_chunking, dsem, direct_init, joinChunks] using this

/-- C4: a non-empty record sequence with k H2-tagged records yields k
chunks when the first record is an H2 (no pre-H2 content) and k + 1
chunks otherwise, under both organizer variants, with big_chunk_index
values contiguous from 1. -/
theorem C4_h2_boundary (p : Str) (ps : List Str) :
    ((organize_by_h2 (p :: ps)).length
        = (p :: ps).countP isH2rec + (if isH2rec p then 0 else 1)) ∧
    ((direct_chunking (p :: ps)).length
        = (p :: ps).countP isH2rec + (if isH2rec p then 0 else 1)) ∧
    ((organize_by_h2 (p :: ps)).map Chunk.big_chunk_index
        = List.range' 1 (organize_by_h2 (p :: ps)).length) ∧
    ((direct_chunking (p :: ps)).map Chunk.big_chunk_index
        = List.range' 1 (direct_chunking (p :: ps)).length) := by
  have hne := organize_by_h2_ne_nil p ps
  refine ⟨?_, ?_, ?_, ?_⟩
  · simp only [organize_by_h2]
    split
    · rename_i hcase
      exact absurd hcase.1 hne
    · have hcount := org_count_current_empty (p :: ps) ⟨[], 1, []⟩ rfl
      simp only [List.length_nil, Nat.zero_add] at hcount
      rw [hcount]
      by_cases hp : isH2rec p
      · simp [List.takeWhile_cons, hp]
      · simp [List.takeWhile_cons, hp]
  · have hcount := direct_count_before_h2 (p :: ps) direct_init DGood_init rfl
    simp only [direct_chunking]
    rw [hcount]
    by_cases hp : isH2rec p
    · simp [List.takeWhile_cons, hp, direct_init]
    · simp [List.takeWhile_cons, hp, direct_init]
  · simp only [organize_by_h2]
    split
    · simp
    · exact org_finalize_indices _ (OGood_fold (p :: ps) ⟨[], 1, []⟩ ⟨rfl, rfl⟩)
  · exact direct_finalize_indices _ (DGood_fold (p :: ps) direct_init DGood_init)

/-- `HTMLContentExtractor._deduplicate_content` (lines 445-462) with the
`seen` set of case-insensitive trimmed texts made explicit. -/
def dedup_go (seen : List Str) : List Str → List Str
  | [] => []
  | c :: rest =>
    if trimWS c = [] then dedup_go seen rest
    else if pyLower (trimWS c) ∈ seen then dedup_go seen rest
    else trimWS c :: dedup_go (pyLower (trimWS c) :: seen) rest

/-- Deduplication of the content list of one chunk. -/
def deduplicate_content (l : List Str) : List Str := dedup_go [] l

/-- `HTMLContentExtractor._create_final_json` (lines 424-443): substitute
a placeholder chunk when no chunk was produced, then deduplicate each
chunk separately. -/
def create_final_json (chunks : List Chunk) : List Chunk :=
  (if chunks = [] then [⟨1, [s2c "CONTENT: No content extracted"]⟩] else chunks).map
    (fun c => ⟨c.big_chunk_index, deduplicate_content c.small_chunks⟩)

theorem rstripWS_cons_eq (c : Char) (t : Str) :
    rstripWS (c :: t)
      = (match rstripWS t with
         | [] => if isWS c then [] else [c]
         | r => c :: r) := rfl

theorem rstripWS_cons_of_ne (c : Char) (t : Str) (h : rstripWS t ≠ []) :
    rstripWS (c :: t) = c :: rstripWS t := by
  rw [rstripWS_cons_eq]
  cases hr : rstripWS t with
  | nil => exact absurd hr h
  | cons x xs => rfl

theorem rstripWS_cons_of_nil (c : Char) (t : Str) (h : rstripWS t = []) :
    rstripWS (c :: t) = if isWS c then [] else [c] := by
  rw [rstripWS_cons_eq, h]

theorem rstripWS_idem (l : Str) : rstripWS (rstripWS l) = rstripWS l := by
  induction l with
  | nil => rfl
  | cons c t ih =>
    by_cases h : rstripWS t = []
    · rw [rstripWS_cons_of_nil c t h]
      by_cases hc : isWS c
      · simp [hc, rstripWS]
      · simp only [hc, if_false, Bool.false_eq_true]
        rw [rstripWS_cons_of_nil c [] rfl]
        simp [hc]
    · rw [rstripWS_cons_of_ne c t h,
        rstripWS_cons_of_ne c (rstripWS t) (by rw [ih]; exact h), ih]

theorem rstripWS_cons_shape (c : Char) (t : Str) :
    rstripWS (c :: t) = [] ∨ ∃ r, rstripWS (c :: t) = c :: r := by
  by_cases h : rstripWS t = []
  · rw [rstripWS_cons_of_nil c t h]
    by_cases hc : isWS c
    · left; simp [hc]
    · right; exact ⟨[], by simp [hc]⟩
  · right; exact ⟨rstripWS t, rstripWS_cons_of_ne c t h⟩

theorem trimWS_idem (l : Str) : trimWS (trimWS l) = trimWS l := by
  show rstripWS ((rstripWS (l.dropWhile isWS)).dropWhile isWS)
      = rstripWS (l.dropWhile isWS)
  cases hX : l.dropWhile isWS with
  | nil => rfl
  | cons c t =>
    have hc : isWS c = false := by
      have := List.head_dropWhile_not isWS l (by simp [hX])
      simpa [hX] using this
    rcases rstripWS_cons_shape c t with h0 | ⟨r, hr⟩
    · rw [h0]; rfl
    · rw [hr]
      have hdw : (c :: r).dropWhile isWS = c :: r := by
        simp [List.dropWhile_cons, hc]
      rw [hdw, ← hr, rstripWS_idem]

theorem dedup_go_norms (l : List Str) :
    ∀ seen : List Str,
      (∀ x ∈ dedup_go seen l, pyLower (trimWS x) ∉ seen) ∧
      List.Pairwise (fun a b => pyLower (trimWS a) ≠ pyLower (trimWS b))
        (dedup_go seen l) := by
  induction l with
  | nil => intro seen; simp [dedup_go]
  | cons c rest ih =>
    intro seen
    by_cases hblank : trimWS c = []
    · simpa [dedup_go, hblank] using ih seen
    · by_cases hseen : pyLower (trimWS c) ∈ seen
      · simpa [dedup_go, hblank, hseen] using ih seen
      · have hstep : dedup_go seen (c :: rest)
            = trimWS c :: dedup_go (pyLower (trimWS c) :: seen) rest := by
          simp [dedup_go, hblank, hseen]
        obtain ⟨ihmem, ihpw⟩ := ih (pyLower (trimWS c) :: seen)
        rw [hstep]
        constructor
        · intro x hx
          rcases List.mem_cons.1 hx with hx | hx
          · subst hx
            rw [trimWS_idem]
            exact hseen
          · exact fun hmem => (ihmem x hx) (List.mem_cons_of_mem _ hmem)
        · refine List.pairwise_cons.2 ⟨?_, ihpw⟩
          intro y hy
          have hne := ihmem y hy
          rw [trimWS_idem]
          intro heq
          exact hne (by rw [← heq]; exact List.mem_cons_self _ _)

theorem dedup_go_sublist (l : List Str) :
    ∀ seen : List Str, (dedup_go seen l).Sublist (l.map trimWS) := by
  induction l with
  | nil => intro seen; simp [dedup_go]
  | cons c rest ih =>
    intro seen
    by_cases hblank : trimWS c = []
    · simpa [dedup_go, hblank] using (ih seen).cons (trimWS c)
    · by_cases hseen : pyLower (trimWS c) ∈ seen
      · simpa [dedup_go, hblank, hseen] using (ih seen).cons (trimWS c)
      · have hstep : dedup_go seen (c :: rest)
            = trimWS c :: dedup_go (pyLower (trimWS c) :: seen) rest := by
          simp [dedup_go, hblank, hseen]
        rw [hstep]
        simpa using (ih (pyLower (trimWS c) :: seen)).cons₂ (trimWS c)

/-- A node of the parsed HTML tree: a text node, or an element carrying
its tag name, class list, data-qa attribute and ordered children. -/
inductive Node where
  | text : Str → Node
  | elem : Str → List Str → Str → List Node → Node

/-- Tag name of an element (empty for text nodes). -/
def Node.name : Node → Str
  | .text _ => []
  | .elem n _ _ _ => n

/-- Class attribute list of an element. -/
def Node.classes : Node → List Str
  | .text _ => []
  | .elem _ cl _ _ => cl

/-- The data-qa attribute of an element. -/
def Node.dataQa : Node → Str
  | .text _ => []
  | .elem _ _ qa _ => qa

/-- Direct children of an element (text nodes included), as counted by
`len(list(element.children))`. -/
def Node.children : Node → List Node
  | .text _ => []
  | .elem _ _ _ ch => ch

mutual
/-- All text-node strings of a subtree in document order. -/
def Node.textPieces : Node → List Str
  | .text s => [s]
  | .elem _ _ _ ch => textPiecesList ch
def textPiecesList : List Node → List Str
  | [] => []
  | n :: ns => n.textPieces ++ textPiecesList ns
end

/-- BeautifulSoup `get_text()`: concatenation of all subtree strings. -/
def Node.getText (n : Node) : Str := n.textPieces.flatten

/-- BeautifulSoup `get_text(separator=sep, strip=True)`: strip each
string, drop the empty ones, join with the separator. -/
def Node.getTextSepStrip (sep : Str) (n : Node) : Str :=
  List.intercalate sep ((n.textPieces.map trimWS).filter (fun s => !s.isEmpty))

mutual
/-- Descendant elements of a node in document (pre-)order, each paired
with its ancestor chain (nearest ancestor first). -/
def Node.descWithAnc : Node → List Node → List (Node × List Node)
  | .text _, _ => []
  | .elem a b c d, anc => descWithAncList d (Node.elem a b c d :: anc)
def descWithAncList : List Node → List Node → List (Node × List Node)
  | [], _ => []
  | .text _ :: ns, anc => descWithAncList ns anc
  | .elem a b c d :: ns, anc =>
      (Node.elem a b c d, anc) ::
        ((Node.elem a b c d).descWithAnc anc ++ descWithAncList ns anc)
end

/-- BeautifulSoup `element.find_all()`: all descendant elements in
document order. -/
def Node.descElems (n : Node) : List Node := (n.descWithAnc []).map Prod.fst

/-- BeautifulSoup `find` over descendants: first element in document
order satisfying the predicate, with its ancestor chain. -/
def findWithAnc (doc : Node) (p : Node → Bool) : Option (Node × List Node) :=
  (doc.descWithAnc []).find? (fun ea => p ea.1)

/-- Tags removed by `HTMLContentExtractor._preprocess_soup`. -/
def noiseTags : List Str :=
  [s2c "script", s2c "style", s2c "nav", s2c "footer", s2c "aside", s2c "header"]

mutual
/-- Remove all descendant subtrees whose element satisfies `p` from a
node (models decomposing matching tags in place). -/
def pruneNode (p : Node → Bool) : Node → Node
  | .text s => Node.text s
  | .elem a b c d => Node.elem a b c (pruneList p d)
/-- Remove all subtrees whose root element satisfies `p` from a node
list. -/
def pruneList (p : Node → Bool) : List Node → List Node
  | [] => []
  | .text s :: ns => Node.text s :: pruneList p ns
  | .elem a b c d :: ns =>
    if p (Node.elem a b c d) then pruneList p ns
    else pruneNode p (Node.elem a b c d) :: pruneList p ns
end

/-- `HTMLContentExtractor._preprocess_soup`: drop script, style, nav,
footer, aside and header subtrees (comments are not modelled). -/
def preprocess_soup (root : Node) : Node :=
  match root with
  | .text s => .text s
  | .elem a b c d => .elem a b c (pruneList (fun n => noiseTags.contains n.name) d)

/-- Identity used by the processed-set: the content-based key of
`HTMLContentExtractor._get_element_id` — tag name, first 100 characters
of the text stripped, and the direct-child count (the Python string
hash is modelled as the tuple itself). -/
abbrev ElemId := Str × Str × Nat

/-- `HTMLContentExtractor._get_element_id` (lines 72-79). -/
def get_element_id : Node → ElemId
  | .text _ => ([], [], 0)
  | .elem a _ _ d =>
    (a, trimWS (((Node.elem a [] [] d).getText).take 100), d.length)

/-- `HTMLContentExtractor._is_already_processed` (lines 81-84). -/
def is_already_processed (processed : List ElemId) (e : Node) : Bool :=
  decide (get_element_id e ∈ processed)

/-- `HTMLContentExtractor._mark_as_processed` (lines 86-89). -/
def mark_as_processed (processed : List ElemId) (e : Node) : List ElemId :=
  get_element_id e :: processed

/-- Mark an element and all its descendant elements processed (the
`for child in element.find_all(): self._mark_as_processed(child)`
pattern used by the composite formatters). -/
def mark_with_children (processed : List ElemId) (e : Node) : List ElemId :=
  get_element_id e :: (e.descElems.map get_element_id) ++ processed

/-- Container tags checked by `_is_inside_processed_container`. -/
def container_tags : List Str := [s2c "table", s2c "ul", s2c "ol", s2c "dl"]

/-- `HTMLContentExtractor._is_inside_processed_container` (lines 91-99):
for each container tag, look up the nearest ancestor with that tag and
test whether it was already processed. -/
def is_inside_processed_container
    (processed : List ElemId) (anc : List Node) : Bool :=
  container_tags.any (fun tag =>
    match anc.find? (fun a => a.name == tag) with
    | some parent => is_already_processed processed parent
    | none => false)

/-- Substring test (Python `in` on strings). -/
def is_substring (pat : Str) : Str → Bool
  | [] => pat.isPrefixOf ([] : Str)
  | c :: t => pat.isPrefixOf (c :: t) || is_substring pat t

/-- Case-insensitive substring search (a plain-text pattern under
`re.IGNORECASE`). -/
def contains_ci (hay pat : Str) : Bool :=
  is_substring (pyLower pat) (pyLower hay)

/-- Scan for the first occurrence of the literal pattern reachable
without crossing a newline (a `.*pattern` step of `re.search`, with the
dot not matching newlines), case-insensitively; return the remainder
after the occurrence. -/
def scan_no_newline (pat : Str) : Str → Option Str
  | [] => if (pyLower pat).isPrefixOf ([] : Str) then some [] else none
  | c :: t =>
    if (pyLower pat).isPrefixOf (pyLower (c :: t)) then
      some ((c :: t).drop pat.length)
    else if c = '\n' then none
    else scan_no_newline pat t

/-- Match attempt for the `⚠️.*WARNING.*⚠️` pattern at the start of the
input (two code points per emoji). -/
def warn_attempt (cs : Str) : Bool :=
  match cs with
  | '⚠' :: c2 :: rest =>
    if c2 = '️' then
      match scan_no_newline (s2c "WARNING") rest with
      | some r2 => (scan_no_newline (s2c "⚠️") r2).isSome
      | none => false
    else false
  | _ => false

/-- `re.search` of `⚠️.*WARNING.*⚠️` with `IGNORECASE`: try every start
position. -/
def warn_regex_search : Str → Bool
  | [] => false
  | c :: t => warn_attempt (c :: t) || warn_regex_search t

/-- Class markers of `_is_warning_block`. -/
def warning_classes : List Str :=
  [s2c "warning", s2c "risk-alert", s2c "disclaimer", s2c "alert"]

/-- `HTMLContentExtractor._is_warning_block` (lines 205-227). -/
def is_warning_block (e : Node) : Bool :=
  let text := trimWS e.getText
  warn_regex_search text
  || contains_ci text (s2c "ADDICTION RISK WARNING")
  || contains_ci text (s2c "BONUS RISK WARNING")
  || contains_ci text (s2c "FINANCIAL RISK WARNING")
  || warning_classes.any (fun cls => e.classes.contains cls)

/-- Characters excluded by the `[^⚠️]` class. -/
def not_warn_class_char (c : Char) : Bool := c ≠ '⚠' && c ≠ '️'

/-- Match attempt for `⚠️[^⚠️]*WARNING[^⚠️]*⚠️` at the start of the
input, returning the matched span. -/
def span_attempt (cs : Str) : Option Str :=
  match cs with
  | '⚠' :: c2 :: rest =>
    if c2 = '️' then
      let run := rest.takeWhile not_warn_class_char
      if is_substring (s2c "WARNING") run then
        match rest.drop run.length with
        | '⚠' :: c3 :: _ =>
          if c3 = '️' then
            some ('⚠' :: '️' :: (run ++ ['⚠', '️']))
          else none
        | _ => none
      else none
    else none
  | _ => none

/-- `re.search` of `⚠️[^⚠️]*WARNING[^⚠️]*⚠️` (case sensitive): leftmost
match. -/
def find_warn_span : Str → Option Str
  | [] => none
  | c :: t =>
    match span_attempt (c :: t) with
    | some sp => some sp
    | none => find_warn_span t

/-- Fuelled scanner for `remove_all`; at least one character is
consumed per step, so fuel equal to the input length always suffices. -/
def remove_all_fuel (p : Char) (ps : Str) : Nat → Str → Str
  | 0, _ => []
  | _ + 1, [] => []
  | fuel + 1, c :: t =>
    if (p :: ps).isPrefixOf (c :: t) then
      remove_all_fuel p ps fuel (t.drop ps.length)
    else c :: remove_all_fuel p ps fuel t

/-- Python `text.replace(p :: ps, '')`: remove all non-overlapping
occurrences, scanning left to right. -/
def remove_all (p : Char) (ps : Str) (cs : Str) : Str :=
  remove_all_fuel p ps cs.length cs

/-- Remove all occurrences of a pattern string. -/
def remove_all_sub (pat : Str) (cs : Str) : Str :=
  match pat with
  | [] => cs
  | p :: ps => remove_all p ps cs

/-- `HTMLContentExtractor._format_warning_block` (lines 229-247). -/
def format_warning_block (processed : List ElemId) (e : Node) :
    List ElemId × Option Str :=
  let processed2 := mark_with_children processed e
  let text := clean_text_preserve_structure e.getText
  if is_substring (s2c "⚠️") text && is_substring (s2c "WARNING") text then
    match find_warn_span text with
    | some span =>
      (processed2, some (s2c "WARNING: " ++ span ++ s2c " // "
        ++ trimWS (remove_all_sub span text)))
    | none => (processed2, some (s2c "WARNING: " ++ text))
  else (processed2, some (s2c "WARNING: " ++ text))

/-- `HTMLContentExtractor._format_heading` (lines 249-260): uppercase
tag prefix, stripping one redundant leading repetition of the label. -/
def format_heading (processed : List ElemId) (e : Node) :
    List ElemId × Option Str :=
  let processed2 := mark_as_processed processed e
  let tag := pyUpper e.name
  let text := clean_text_preserve_structure e.getText
  let text2 :=
    if (tag ++ [':']).isPrefixOf text then trimWS (text.drop (tag.length + 1))
    else text
  (processed2, some (tag ++ s2c ": " ++ text2))

/-- `HTMLContentExtractor._format_table_comprehensive` (lines 262-301). -/
def format_table_comprehensive (processed : List ElemId) (e : Node) :
    List ElemId × Option Str :=
  let processed2 := mark_with_children processed e
  let trs := e.descElems.filter (fun n => n.name == s2c "tr")
  let headers : List Str :=
    match trs.head? with
    | some hr =>
      if (hr.descElems.filter (fun n => n.name == s2c "th")).isEmpty then []
      else (hr.descElems.filter (fun n => n.name == s2c "th")).map
          (fun th => clean_text_preserve_structure th.getText)
    | none => []
  let start := if headers.isEmpty then 0 else 1
  let rows := (trs.drop start).foldl (fun acc tr =>
    let cells := (tr.descElems.filter
        (fun n => n.name == s2c "td" || n.name == s2c "th")).map
      (fun td => clean_text_preserve_structure td.getText)
    if !cells.isEmpty && cells.any (fun c => !(trimWS c).isEmpty) then
      if !headers.isEmpty && cells.length = headers.length then
        let paired := (headers.zip cells).filterMap (fun hv =>
          if (trimWS hv.2).isEmpty then none
          else some (hv.1 ++ s2c ": " ++ hv.2))
        if paired.isEmpty then acc
        else acc ++ [List.intercalate (s2c " | ") paired]
      else
        let nonEmpty := cells.filter (fun c => !(trimWS c).isEmpty)
        if nonEmpty.isEmpty then acc
        else acc ++ [List.intercalate (s2c " | ") nonEmpty]
    else acc) []
  (processed2,
    if rows.isEmpty then none
    else some (s2c "TABLE: " ++ List.intercalate (s2c " // ") rows))

/-- `HTMLContentExtractor._format_list_comprehensive` (lines 303-321):
direct `li` children only. -/
def format_list_comprehensive (processed : List ElemId) (e : Node) :
    List ElemId × Option Str :=
  let processed2 := mark_with_children processed e
  let list_type :=
    if e.name == s2c "ol" then s2c "ORDERED" else s2c "UNORDERED"
  let items := (e.children.filter (fun n => n.name == s2c "li")).filterMap
    (fun li =>
      let t := clean_text_preserve_structure li.getText
      if t.isEmpty then none else some t)
  (processed2,
    if items.isEmpty then none
    else some (list_type ++ s2c "_LIST: " ++ List.intercalate (s2c " // ") items))

/-- The `dt`/`dd` pairing loop of
`_format_definition_list_comprehensive`: a `dd` is paired only while a
non-empty term is pending, and the pending term is then cleared. -/
def build_definitions : List Node → Option Str → List Str
  | [], _ => []
  | n :: rest, cur =>
    if n.name == s2c "dt" then
      build_definitions rest (some (clean_text_preserve_structure n.getText))
    else if n.name == s2c "dd" then
      match cur with
      | some t =>
        if t.isEmpty then build_definitions rest (some t)
        else
          let d := clean_text_preserve_structure n.getText
          (if d.isEmpty then [] else [t ++ s2c ": " ++ d])
            ++ build_definitions rest none
      | none => build_definitions rest none
    else build_definitions rest cur

/-- The formatted `Term: definition` pair strings of a definition
list. -/
def definition_pairs (e : Node) : List Str :=
  build_definitions
    (e.descElems.filter (fun n => n.name == s2c "dt" || n.name == s2c "dd")) none

/-- `HTMLContentExtractor._format_definition_list_comprehensive`
(lines 323-349): FAQ prefix when any formatted pair contains a question
mark. -/
def format_definition_list_comprehensive (processed : List ElemId) (e : Node) :
    List ElemId × Option Str :=
  let processed2 := mark_with_children processed e
  let defs := definition_pairs e
  (processed2,
    if defs.isEmpty then none
    else if defs.any (fun d => d.contains '?') then
      some (s2c "FAQ: " ++ List.intercalate (s2c " // ") defs)
    else
      some (s2c "DEFINITION_LIST: " ++ List.intercalate (s2c " // ") defs))

/-- `HTMLContentExtractor._format_paragraph` (lines 351-369). -/
def format_paragraph (processed : List ElemId) (e : Node) (anc : List Node) :
    List ElemId × Option Str :=
  if is_inside_processed_container processed anc then (processed, none)
  else
    let processed2 := mark_as_processed processed e
    let text := clean_text_preserve_structure e.getText
    if text.isEmpty then (processed2, none)
    else if e.classes.contains (s2c "lead") then
      (processed2, some (s2c "LEAD: " ++ text))
    else (processed2, some (s2c "CONTENT: " ++ text))

/-- `HTMLContentExtractor._format_container` (lines 371-390): only
FAQ-marked div/section containers produce a record. -/
def format_container (processed : List ElemId) (e : Node) (anc : List Node) :
    List ElemId × Option Str :=
  if is_inside_processed_container processed anc
      || is_already_processed processed e then (processed, none)
  else if e.classes.contains (s2c "faq")
      || is_substring (s2c "templateFAQ") e.dataQa then
    (mark_with_children processed e,
      some (s2c "FAQ: " ++ clean_text_preserve_structure e.getText))
  else (processed, none)

/-- Heading tags. -/
def heading_tags : List Str :=
  [s2c "h1", s2c "h2", s2c "h3", s2c "h4", s2c "h5", s2c "h6"]

/-- `HTMLContentExtractor._format_element_comprehensive` (lines 167-203):
warning detection takes precedence over tag dispatch. -/
def format_element_comprehensive
    (processed : List ElemId) (e : Node) (anc : List Node) :
    List ElemId × Option Str :=
  if is_already_processed processed e then (processed, none)
  else if is_warning_block e then format_warning_block processed e
  else
    let tag := pyLower e.name
    if heading_tags.contains tag then format_heading processed e
    else if tag == s2c "table" then format_table_comprehensive processed e
    else if tag == s2c "ul" || tag == s2c "ol" then
      format_list_comprehensive processed e
    else if tag == s2c "dl" then format_definition_list_comprehensive processed e
    else if tag == s2c "p" then format_paragraph processed e anc
    else if tag == s2c "div" || tag == s2c "section" then
      format_container processed e anc
    else (processed, none)

/-- Tag filter of the main traversal in
`_extract_with_direct_chunking` (line 113). -/
def walkTags : List Str :=
  [s2c "h1", s2c "h2", s2c "h3", s2c "h4", s2c "h5", s2c "h6", s2c "p",
   s2c "table", s2c "ul", s2c "ol", s2c "dl", s2c "section", s2c "div"]

/-- Walker state: the processed set plus the chunking state. -/
structure WalkState where
  processed : List ElemId
  chunk : DirectState

/-- One iteration of the main loop of `_extract_with_direct_chunking`
(lines 113-150): skip processed or contained elements, format, then
feed the record to the chunk bookkeeping. -/
def walk_step (st : WalkState) (ea : Node × List Node) : WalkState :=
  if is_already_processed st.processed ea.1
      || is_inside_processed_container st.processed ea.2 then st
  else
    match format_element_comprehensive st.processed ea.1 ea.2 with
    | (processed2, none) => ⟨processed2, st.chunk⟩
    | (processed2, some r) => ⟨processed2, direct_step st.chunk r⟩

/-- `soup.find(tag)` with the ancestor chain of the result. -/
def find_tag_with_anc (doc : Node) (tag : Str) : Option (Node × List Node) :=
  (doc.descWithAnc []).find? (fun ea => ea.1.name == tag)

/-- Main content area selection (line 110): article, else main, else
body, else the whole document. -/
def main_area (doc : Node) : Node × List Node :=
  match find_tag_with_anc doc (s2c "article") with
  | some p => p
  | none =>
    match find_tag_with_anc doc (s2c "main") with
    | some p => p
    | none =>
      match find_tag_with_anc doc (s2c "body") with
      | some p => p
      | none => (doc, [])

/-- `soup.find('section', attrs={'data-qa': qa})`: exact attribute
match. -/
def find_section_qa (doc : Node) (qa : Str) : Option Node :=
  ((doc.descWithAnc []).find?
    (fun ea => ea.1.name == s2c "section" && ea.1.dataQa == qa)).map Prod.fst

/-- Append a record to the last chunk of a list, if any. -/
def append_to_last : List Chunk → Str → List Chunk
  | [], _ => []
  | [c], r => [⟨c.big_chunk_index, c.small_chunks ++ [r]⟩]
  | c :: rest, r => c :: append_to_last rest r

/-- One special-section step of `_extract_special_sections`
(lines 404-422): mark the section, then append its text to the last
chunk only when the text is non-empty and at least one chunk exists. -/
def special_section_step (doc : Node) (qa : Str) (prefixRec : Str)
    (st : List ElemId × List Chunk) : List ElemId × List Chunk :=
  match find_section_qa doc qa with
  | some sec =>
    if is_already_processed st.1 sec then st
    else
      let processed2 := mark_as_processed st.1 sec
      let t := clean_text_preserve_structure sec.getText
      if !t.isEmpty && !st.2.isEmpty then
        (processed2, append_to_last st.2 (prefixRec ++ t))
      else (processed2, st.2)
  | none => st

/-- `HTMLContentExtractor._extract_special_sections` (lines 404-422). -/
def extract_special_sections (doc : Node)
    (st : List ElemId × List Chunk) : List ElemId × List Chunk :=
  special_section_step doc (s2c "templateAuthorCard") (s2c "AUTHOR: ")
    (special_section_step doc (s2c "templateFAQ") (s2c "FAQ: ") st)

/-- The whole HTML-direct extraction pipeline on a parsed document:
preprocess, walk the main area with direct chunking, handle special
sections, then build the final chunk list
(`extract_content` lines 33-54 without the exception wrapper). -/
def extract_and_organize (doc : Node) : List Chunk :=
  let doc2 := preprocess_soup doc
  let m := main_area doc2
  let items := (m.1.descWithAnc m.2).filter
    (fun ea => walkTags.contains ea.1.name)
  let st := items.foldl walk_step ⟨[], direct_init⟩
  let chunks := direct_finalize st.chunk
  let res := extract_special_sections doc2 (st.processed, chunks)
  create_final_json res.2

/-- `HTMLContentExtractor.extract_content` (lines 23-59): the parse
step is abstracted as an `Except`; a parse failure is caught and turned
into a tagged failure triple, success carries the organized chunks. -/
def html_extract_content (parse_result : Except Str Node) :
    Bool × Option (List Chunk) × Option Str :=
  match parse_result with
  | .error e => (false, none, some (s2c "HTML parsing error: " ++ e))
  | .ok doc => (true, some (extract_and_organize doc), none)

/-- `ContentExtractor._format_table` (extractor.py lines 177-205). -/
def url_format_table (e : Node) : Option Str :=
  let trs := e.descElems.filter (fun n => n.name == s2c "tr")
  let headers : List Str :=
    match trs.head? with
    | some hr =>
      if (hr.descElems.filter (fun n => n.name == s2c "th")).isEmpty then []
      else (hr.descElems.filter (fun n => n.name == s2c "th")).map
          (fun th => th.getTextSepStrip [])
    | none => []
  let start := if headers.isEmpty then 0 else 1
  let rows := (trs.drop start).foldl (fun acc tr =>
    let cells := (tr.descElems.filter
        (fun n => n.name == s2c "td" || n.name == s2c "th")).map
      (fun td => td.getTextSepStrip [])
    if !cells.isEmpty && cells.any (fun c => !c.isEmpty) then
      if !headers.isEmpty && cells.length = headers.length then
        let paired := (headers.zip cells).filterMap (fun hv =>
          if (trimWS hv.2).isEmpty then none
          else some (hv.1 ++ s2c ": " ++ hv.2))
        if paired.isEmpty then acc
        else acc ++ [List.intercalate (s2c " | ") paired]
      else
        let nonEmpty := cells.filter (fun c => !(trimWS c).isEmpty)
        if nonEmpty.isEmpty then acc
        else acc ++ [List.intercalate (s2c " | ") nonEmpty]
    else acc) []
  if rows.isEmpty then none
  else some (s2c "TABLE: " ++ List.intercalate (s2c " // ") rows)

/-- `ContentExtractor._format_list` (extractor.py lines 207-219). -/
def url_format_list (e : Node) : Option Str :=
  let list_type :=
    if e.name == s2c "ol" then s2c "ORDERED" else s2c "UNORDERED"
  let items := (e.children.filter (fun n => n.name == s2c "li")).filterMap
    (fun li =>
      let t := li.getTextSepStrip (s2c " ")
      if t.isEmpty then none else some t)
  if items.isEmpty then none
  else some (list_type ++ s2c "_LIST: " ++ List.intercalate (s2c " // ") items)

/-- The `dt`/`dd` pairing loop of `ContentExtractor._format_definition_list`. -/
def url_build_definitions : List Node → Option Str → List Str
  | [], _ => []
  | n :: rest, cur =>
    if n.name == s2c "dt" then
      url_build_definitions rest (some (n.getTextSepStrip []))
    else if n.name == s2c "dd" then
      match cur with
      | some t =>
        if t.isEmpty then url_build_definitions rest (some t)
        else
          let d := n.getTextSepStrip (s2c " ")
          (if d.isEmpty then [] else [t ++ s2c ": " ++ d])
            ++ url_build_definitions rest none
      | none => url_build_definitions rest none
    else url_build_definitions rest cur

/-- `ContentExtractor._format_definition_list` (extractor.py lines
221-237): always the DEFINITION_LIST prefix, never FAQ. -/
def url_format_definition_list (e : Node) : Option Str :=
  let defs := url_build_definitions
    (e.descElems.filter (fun n => n.name == s2c "dt" || n.name == s2c "dd")) none
  if defs.isEmpty then none
  else some (s2c "DEFINITION_LIST: " ++ List.intercalate (s2c " // ") defs)

/-- `ContentExtractor._format_element` (extractor.py lines 143-175):
note the heading branch emits the raw extracted text with no
double-prefix stripping. -/
def url_format_element (e : Node) : Option Str :=
  let tag := pyLower e.name
  let text := e.getTextSepStrip (s2c "\n")
  if text.isEmpty then none
  else if heading_tags.contains tag then
    some (pyUpper tag ++ s2c ": " ++ text)
  else if tag == s2c "p" then
    if e.classes.contains (s2c "lead") then some (s2c "LEAD: " ++ text)
    else some (s2c "CONTENT: " ++ text)
  else if tag == s2c "table" then url_format_table e
  else if tag == s2c "ul" || tag == s2c "ol" then url_format_list e
  else if tag == s2c "dl" then url_format_definition_list e
  else none

/-- Tag filter of the article traversal in
`_extract_structured_content` (extractor.py line 118). -/
def urlWalkTags : List Str :=
  [s2c "h1", s2c "h2", s2c "h3", s2c "h4", s2c "h5", s2c "h6", s2c "p",
   s2c "table", s2c "ul", s2c "ol", s2c "dl"]

/-- `ContentExtractor._extract_structured_content` (extractor.py lines
85-141): H1, subtitle, lead, article elements, FAQ and author sections,
then drop blank parts. -/
def url_extract_structured_content (doc : Node) : List Str :=
  let h1_part :=
    match (doc.descWithAnc []).find? (fun ea => ea.1.name == s2c "h1") with
    | some ea =>
      let t := ea.1.getTextSepStrip (s2c "\n")
      if t.isEmpty then [] else [s2c "H1: " ++ t]
    | none => []
  let subtitle_part :=
    match (doc.descWithAnc []).find? (fun ea =>
        ea.1.name == s2c "span" &&
          (ea.1.classes.contains (s2c "sub-title")
            || ea.1.classes.contains (s2c "d-block"))) with
    | some ea =>
      let t := ea.1.getTextSepStrip (s2c "\n")
      if t.isEmpty then [] else [s2c "SUBTITLE: " ++ t]
    | none => []
  let lead_part :=
    match (doc.descWithAnc []).find? (fun ea =>
        ea.1.name == s2c "p" && ea.1.classes.contains (s2c "lead")) with
    | some ea =>
      let t := ea.1.getTextSepStrip (s2c "\n")
      if t.isEmpty then [] else [s2c "LEAD: " ++ t]
    | none => []
  let article_parts :=
    match (doc.descWithAnc []).find? (fun ea => ea.1.name == s2c "article") with
    | some ea =>
      let art :=
        match ea.1 with
        | .text s => Node.text s
        | .elem a b c d =>
          Node.elem a b c (pruneList (fun n =>
            n.name == s2c "div" && n.classes.contains (s2c "tab-content")) d)
      ((art.descWithAnc []).filter (fun p => urlWalkTags.contains p.1.name)).filterMap
        (fun p => url_format_element p.1)
    | none => []
  let faq_part :=
    match find_section_qa doc (s2c "templateFAQ") with
    | some sec =>
      let t := sec.getTextSepStrip (s2c "\n")
      if t.isEmpty then [] else [s2c "FAQ: " ++ t]
    | none => []
  let author_part :=
    match find_section_qa doc (s2c "templateAuthorCard") with
    | some sec =>
      let t := sec.getTextSepStrip (s2c "\n")
      if t.isEmpty then [] else [s2c "AUTHOR: " ++ t]
    | none => []
  (h1_part ++ subtitle_part ++ lead_part ++ article_parts
    ++ faq_part ++ author_part).filter (fun part => !(trimWS part).isEmpty)

/-- Text node from a string literal. -/
def mkText (s : String) : Node := .text s.data

/-- Element node from string literals. -/
def mkElem (n : String) (cl : List String) (qa : String) (ch : List Node) : Node :=
  .elem n.data (cl.map String.data) qa.data ch

/-- A paragraph with plain attributes and the text Hello. -/
def p_plain : Node := mkElem "p" [] "" [mkText "Hello"]

/-- A structurally distinct paragraph (different class attribute) with
the same text Hello. -/
def p_highlight : Node := mkElem "p" ["highlight"] "" [mkText "Hello"]

/-- Document with two structurally distinct paragraphs sharing one
text. -/
def two_p_doc : Node := mkElem "[document]" [] "" [mkElem "body" [] "" [
  p_plain, p_highlight]]

/-- Document whose two H2 sections each contain a paragraph with the
same visible text (the second paragraph has a nested inline element, so
its content-based identity differs). -/
def dup_doc : Node := mkElem "[document]" [] "" [mkElem "body" [] "" [
  mkElem "h2" [] "" [mkText "One"],
  mkElem "p" [] "" [mkText "Hello"],
  mkElem "h2" [] "" [mkText "Two"],
  mkElem "p" [] "" [mkText "Hel", mkElem "b" [] "" [mkText "lo"]]]]

/-- The warning div of the specification example, wrapped in a generic
container. -/
def warn_div : Node :=
  mkElem "div" [] "" [mkElem "p" [] "" [mkText "⚠️ BONUS RISK WARNING ⚠️ Terms apply"]]

/-- Document containing the warning div. -/
def warn_doc : Node := mkElem "[document]" [] "" [mkElem "body" [] "" [warn_div]]

/-- The trailing FAQ section outside the article. -/
def faq_outside_sec : Node :=
  mkElem "section" [] "templateFAQ" [mkText "Questions and answers here"]

/-- Document with an empty article and a FAQ special section outside
it. -/
def c10_doc : Node := mkElem "[document]" [] "" [mkElem "body" [] "" [
  mkElem "article" [] "" [], faq_outside_sec]]

/-- A document that parses but holds no significant content. -/
def empty_doc : Node := mkElem "[document]" [] "" [mkElem "body" [] "" []]

/-- A heading whose raw text already carries the tag label once. -/
def h2_prefixed : Node := mkElem "h2" [] "" [mkText "H2: Getting Started"]

/-- A heading whose raw text carries the tag label twice. -/
def h2_double_prefixed : Node := mkElem "h2" [] "" [mkText "H2: H2: Getting Started"]

/-- A definition list whose only question mark sits in the term. -/
def term_question_dl : Node := mkElem "dl" [] "" [
  mkElem "dt" [] "" [mkText "What is X?"],
  mkElem "dd" [] "" [mkText "An explanation."]]

/-- A definition list with a question mark inside a definition. -/
def def_question_dl : Node := mkElem "dl" [] "" [
  mkElem "dt" [] "" [mkText "Opening hours"],
  mkElem "dd" [] "" [mkText "Why not ask?"]]

/-- A definition list with no question mark at all. -/
def no_question_dl : Node := mkElem "dl" [] "" [
  mkElem "dt" [] "" [mkText "Term"],
  mkElem "dd" [] "" [mkText "Meaning."]]

/-- Claim C1 counterexample: deduplication is not global. In `dup_doc`
two structurally distinct paragraphs with identical text land in two
different big chunks, and the final output retains the text twice, so
a later record matching an earlier record in a different big chunk is
not dropped. -/
theorem C1_counterexample :
    (joinChunks (extract_and_organize dup_doc)).count (s2c "CONTENT: Hello") = 2
    ∧ extract_and_organize dup_doc
      = [⟨1, [s2c "H2: One", s2c "CONTENT: Hello"]⟩,
         ⟨2, [s2c "H2: Two", s2c "CONTENT: Hello"]⟩] :=
  ⟨by decide, by decide⟩

/-- C1 (amended): deduplication is per big chunk. The finalizer applies
`_deduplicate_content` to each chunk separately; within one chunk the
kept records have pairwise distinct case-insensitive trimmed texts,
first occurrences are kept, and order is preserved (the output is a
sublist of the trimmed input). Duplicates across chunks survive. -/
theorem C1_per_chunk_dedup (chunks : List Chunk) (l : List Str)
    (h : chunks ≠ []) :
    create_final_json chunks
      = chunks.map (fun c => ⟨c.big_chunk_index, deduplicate_content c.small_chunks⟩)
    ∧ List.Pairwise (fun a b => pyLower (trimWS a) ≠ pyLower (trimWS b))
        (deduplicate_content l)
    ∧ (deduplicate_content l).Sublist (l.map trimWS) := by
  refine ⟨?_, (dedup_go_norms l []).2, dedup_go_sublist l []⟩
  simp [create_final_json, h]

/-- Witness for the amended C1 theorem at a concrete chunk list. -/
theorem C1_per_chunk_dedup_witness :
    ([⟨1, [s2c "CONTENT: x"]⟩] : List Chunk) ≠ []
    ∧ create_final_json [⟨1, [s2c "CONTENT: x"]⟩]
        = [⟨1, [s2c "CONTENT: x"]⟩] := by
  constructor
  · decide
  · have := (C1_per_chunk_dedup [⟨1, [s2c "CONTENT: x"]⟩] [] (by decide)).1
    rw [this]
    decide

/-- Claim C2 counterexample: in the URL variant an empty document
yields an empty record list, and `_organize_by_h2` then returns an
empty `big_chunks` list, not a single placeholder entry. -/
theorem C2_counterexample :
    url_extract_structured_content empty_doc = []
    ∧ organize_by_h2 (url_extract_structured_content empty_doc) = [] :=
  ⟨by decide, by decide⟩

/-- C2 (amended): the HTML-direct variant guarantees one placeholder
chunk with a non-empty small_chunks list for a document with no
significant content, and its finalizer never returns an empty chunk
list; the URL-variant organizer, given an empty record list, instead
returns an empty big_chunks list (still without error). -/
theorem C2_degenerate_behavior (chunks : List Chunk) :
    create_final_json [] = [⟨1, [s2c "CONTENT: No content extracted"]⟩]
    ∧ extract_and_organize empty_doc
        = [⟨1, [s2c "CONTENT: No content extracted"]⟩]
    ∧ create_final_json chunks ≠ []
    ∧ organize_by_h2 [] = [] := by
  refine ⟨by decide, by decide, ?_, by decide⟩
  by_cases h : chunks = []
  · subst h; decide
  · simp [create_final_json, h]

/-- Claim C5: when parsing fails, extraction returns the tagged failure
triple: success flag false, no content, and a descriptive message; on
a successful parse the error component is empty and the flag is true. -/
theorem C5_parse_failure (e : Str) (doc : Node) :
    html_extract_content (Except.error e)
      = (false, none, some (s2c "HTML parsing error: " ++ e))
    ∧ (html_extract_content (Except.ok doc)).2.2 = none
    ∧ (html_extract_content (Except.ok doc)).1 = true :=
  ⟨rfl, rfl, rfl⟩

/-- Claim C6 counterexample: the URL variant `_format_element` performs
no double-prefix stripping, so the raw heading text of the
specification example emits a doubled tag label. -/
theorem C6_counterexample :
    url_format_element h2_prefixed = some (s2c "H2: H2: Getting Started") := by
  decide

/-- C6 (amended): only the HTML-direct `_format_heading` strips a
leading repetition of the tag label, and it strips exactly one: raw
text with one repetition emits cleanly, raw text with two repetitions
still shows a doubled label, and the URL variant emits the raw text
unchanged. -/
theorem C6_single_strip :
    (format_heading [] h2_prefixed).2 = some (s2c "H2: Getting Started")
    ∧ (format_heading [] h2_double_prefixed).2
        = some (s2c "H2: H2: Getting Started")
    ∧ url_format_element h2_prefixed = some (s2c "H2: H2: Getting Started") :=
  ⟨by decide, by decide, by decide⟩

theorem format_warning_block_spec (processed : List ElemId) (e : Node) :
    (format_warning_block processed e).1 = mark_with_children processed e
    ∧ ∃ rest, (format_warning_block processed e).2
        = some (s2c "WARNING: " ++ rest) := by
  constructor
  · simp only [format_warning_block]
    split
    · split <;> rfl
    · rfl
  · simp only [format_warning_block]
    split
    · split
      · rename_i span heq
        refine ⟨span ++ s2c " // "
          ++ trimWS (remove_all_sub span
              (clean_text_preserve_structure e.getText)), ?_⟩
        simp [List.append_assoc]
      · exact ⟨clean_text_preserve_structure e.getText, rfl⟩
    · exact ⟨clean_text_preserve_structure e.getText, rfl⟩

/-- Claim C7: a node detected as a warning block is handled by warning
formatting before any tag dispatch: it yields one WARNING record, the
node and all its descendant elements are marked processed, and on the
specification example document the output is exactly one WARNING record
with no CONTENT record. -/
theorem C7_warning_precedence (processed : List ElemId) (e : Node)
    (anc : List Node)
    (hw : is_warning_block e = true)
    (hp : is_already_processed processed e = false) :
    (∃ rest, (format_element_comprehensive processed e anc).2
        = some (s2c "WARNING: " ++ rest))
    ∧ (format_element_comprehensive processed e anc).1
        = mark_with_children processed e
    ∧ is_already_processed (mark_with_children processed e) e = true
    ∧ (∀ d ∈ e.descElems,
        is_already_processed (mark_with_children processed e) d = true)
    ∧ extract_and_organize warn_doc
        = [⟨1, [s2c "WARNING: ⚠️ BONUS RISK WARNING ⚠️ // Terms apply"]⟩]
    ∧ (joinChunks (extract_and_organize warn_doc)).countP
        (fun r => (s2c "CONTENT:").isPrefixOf r) = 0 := by
  have hfe : format_element_comprehensive processed e anc
      = format_warning_block processed e := by
    simp [format_element_comprehensive, hp, hw]
  refine ⟨?_, ?_, ?_, ?_, by decide, by decide⟩
  · rw [hfe]; exact (format_warning_block_spec processed e).2
  · rw [hfe]; exact (format_warning_block_spec processed e).1
  · simp [is_already_processed, mark_with_children]
  · intro d hd
    have hmem : get_element_id d ∈ e.descElems.map get_element_id :=
      List.mem_map_of_mem get_element_id hd
    simp only [is_already_processed, mark_with_children, decide_eq_true_eq]
    exact List.mem_cons_of_mem _ (List.mem_append_left _ hmem)

/-- Witness for C7 at the specification example element. -/
theorem C7_warning_precedence_witness :
    is_warning_block warn_div = true
    ∧ is_already_processed [] warn_div = false
    ∧ (∃ rest, (format_element_comprehensive [] warn_div []).2
        = some (s2c "WARNING: " ++ rest)) :=
  ⟨by decide, by decide,
    (C7_warning_precedence [] warn_div [] (by decide) (by decide)).1⟩

/-- Claim C8 counterexample: a question mark appearing only in the term
still selects the FAQ prefix, because the check runs over the combined
pair strings. -/
theorem C8_counterexample :
    (format_definition_list_comprehensive [] term_question_dl).2
      = some (s2c "FAQ: What is X?: An explanation.")
    ∧ (s2c "An explanation.").contains '?' = false :=
  ⟨by decide, by decide⟩

theorem faq_prefix_of_deflist (xs : Str) :
    (s2c "FAQ:").isPrefixOf (s2c "DEFINITION_LIST: " ++ xs) = false := rfl

theorem faq_prefix_of_faq (xs : Str) :
    (s2c "FAQ:").isPrefixOf (s2c "FAQ: " ++ xs) = true := rfl

/-- C8 (amended): a formatted definition list carries the FAQ prefix if
and only if some formatted `Term: definition` pair string contains a
question mark, so a question mark in the term alone also selects FAQ;
a question mark in a definition selects FAQ and no question mark at all
selects DEFINITION_LIST. -/
theorem C8_faq_iff (processed : List ElemId) (e : Node) (rec : Str)
    (h : (format_definition_list_comprehensive processed e).2 = some rec) :
    ((s2c "FAQ:").isPrefixOf rec = true
      ↔ (definition_pairs e).any (fun d => d.contains '?') = true)
    ∧ (format_definition_list_comprehensive [] def_question_dl).2
        = some (s2c "FAQ: Opening hours: Why not ask?")
    ∧ (format_definition_list_comprehensive [] no_question_dl).2
        = some (s2c "DEFINITION_LIST: Term: Meaning.") := by
  refine ⟨?_, by decide, by decide⟩
  simp only [format_definition_list_comprehensive] at h
  by_cases hempty : (definition_pairs e).isEmpty
  · simp [hempty] at h
  · by_cases hany : (definition_pairs e).any (fun d => d.contains '?') = true
    · simp only [hempty, hany, Bool.false_eq_true, if_false, if_true] at h
      have hrec := Option.some.inj h
      constructor
      · intro _; exact hany
      · intro _; rw [← hrec]; exact faq_prefix_of_faq _
    · simp only [hempty, hany, Bool.false_eq_true, if_false] at h
      have hrec := Option.some.inj h
      constructor
      · intro hpre
        rw [← hrec, faq_prefix_of_deflist] at hpre
        exact absurd hpre (by simp)
      · intro hc; exact absurd hc hany

/-- Witness for C8 at the definition list whose question mark sits in
the term. -/
theorem C8_faq_iff_witness :
    (format_definition_list_comprehensive [] term_question_dl).2
        = some (s2c "FAQ: What is X?: An explanation.")
    ∧ ((s2c "FAQ:").isPrefixOf (s2c "FAQ: What is X?: An explanation.") = true
        ↔ (definition_pairs term_question_dl).any
            (fun d => d.contains '?') = true) :=
  ⟨by decide, (C8_faq_iff [] term_question_dl
      (s2c "FAQ: What is X?: An explanation.") (by decide)).1⟩

/-- Claim C9 counterexample: two structurally distinct paragraphs (they
differ in their class attribute) with identical text receive the same
content-based identity, so after the first is processed the second is
skipped and the document yields only one CONTENT record. -/
theorem C9_counterexample :
    get_element_id p_plain = get_element_id p_highlight
    ∧ p_plain.classes ≠ p_highlight.classes
    ∧ extract_and_organize two_p_doc = [⟨1, [s2c "CONTENT: Hello"]⟩] :=
  ⟨by decide, by decide, by decide⟩

/-- C9 (amended): the identity scheme is content-based — tag name,
first hundred characters of trimmed text, and direct child count — and
ignores attributes and node reference, so two structurally distinct
nodes agreeing on those three components collide and the later one is
skipped (duplicate elimination by design); the example document with
two such paragraphs emits exactly one CONTENT record. -/
theorem C9_content_identity (a : Str) (b1 b2 : List Str) (q1 q2 : Str)
    (d1 d2 : List Node)
    (hlen : d1.length = d2.length)
    (htext : trimWS ((textPiecesList d1).flatten.take 100)
        = trimWS ((textPiecesList d2).flatten.take 100)) :
    get_element_id (Node.elem a b1 q1 d1) = get_element_id (Node.elem a b2 q2 d2)
    ∧ extract_and_organize two_p_doc = [⟨1, [s2c "CONTENT: Hello"]⟩] := by
  refine ⟨?_, by decide⟩
  simp [get_element_id, Node.getText, Node.textPieces, hlen, htext]

/-- Witness for C9 at the two paragraph shapes of the example. -/
theorem C9_content_identity_witness :
    ([Node.text (s2c "Hello")] : List Node).length
        = [Node.text (s2c "Hello")].length
    ∧ get_element_id (Node.elem (s2c "p") [] (s2c "") [Node.text (s2c "Hello")])
        = get_element_id (Node.elem (s2c "p") [s2c "highlight"] (s2c "")
            [Node.text (s2c "Hello")]) :=
  ⟨rfl, (C9_content_identity (s2c "p") [] [s2c "highlight"] (s2c "") (s2c "")
      [Node.text (s2c "Hello")] [Node.text (s2c "Hello")] rfl rfl).1⟩

theorem special_section_step_nil (doc : Node) (qa pre : Str)
    (st : List ElemId × List Chunk) (h : st.2 = []) :
    (special_section_step doc qa pre st).2 = [] := by
  unfold special_section_step
  split
  · split
    · exact h
    · simp only []
      split
      · rw [h]; rfl
      · exact h
  · exact h

/-- Claim C10: a trailing FAQ or AUTHOR special section is appended
only when at least one big chunk already exists; with zero chunks it is
silently dropped, and the document with an empty article and an outside
FAQ section yields only the placeholder chunk, without any FAQ record. -/
theorem C10_faq_dropped (doc : Node) (processed : List ElemId) :
    (extract_special_sections doc (processed, [])).2 = []
    ∧ extract_and_organize c10_doc
        = [⟨1, [s2c "CONTENT: No content extracted"]⟩]
    ∧ find_section_qa c10_doc (s2c "templateFAQ") = some faq_outside_sec
    ∧ clean_text_preserve_structure faq_outside_sec.getText ≠ [] := by
  refine ⟨?_, by decide, rfl, by decide⟩
  unfold extract_special_sections
  exact special_section_step_nil _ _ _ _ (special_section_step_nil _ _ _ _ rfl)
